import Mathlib

/-!
Verification of the codelens-cli scan pipeline (src/src/index.ts).

The development shallowly embeds the pipeline of the `scan` command:
`getFiles` (recursive file discovery), `analyzeFile` (per-file analysis
against the remote service, including its catch-all error handling),
the `Promise.all` fan-out, and the aggregation loop of `displayResults`.
File-system and network effects are modelled by an explicit environment
(`Env`); the event-loop completion order of the concurrent requests is
modelled by an explicit schedule of completion events.
-/

/-! ### String primitives

Models of the JavaScript / Node string operations the CLI uses.  All are
written as executable structural recursions over `String.data` so that
concrete instances evaluate inside the kernel.
-/

/-- Model of JS `String.prototype.toLowerCase` on a single character,
restricted to ASCII (`'A'`-`'Z'` map to `'a'`-`'z'`, all else fixed). -/
def charToLower (c : Char) : Char :=
  if 65 ≤ c.toNat ∧ c.toNat ≤ 90 then Char.ofNat (c.toNat + 32) else c

/-- Model of JS `String.prototype.toLowerCase` (ASCII fragment). -/
def toLowerStr (s : String) : String :=
  String.mk (s.data.map charToLower)

/-- Does the string contain an ASCII uppercase letter? -/
def hasUpperAscii (s : String) : Bool :=
  s.data.any (fun c => decide (65 ≤ c.toNat ∧ c.toNat ≤ 90))

/-- The suffix of the character list starting at its last `'.'`, if any. -/
def extAfterLastDot : List Char → Option (List Char)
  | [] => none
  | c :: cs =>
    match extAfterLastDot cs with
    | some e => some e
    | none => if c = '.' then some (c :: cs) else none

/-- Model of Node `path.extname` on a plain directory-entry name (the only
way the CLI calls it): the substring from the last `'.'` to the end, and
`""` when there is no dot or the only dot is the leading character (a
dotfile such as `.bashrc` has no extension). -/
def extname (name : String) : String :=
  match name.data with
  | [] => ""
  | _ :: cs =>
    match extAfterLastDot cs with
    | some e => String.mk e
    | none => ""

/-- Model of JS `Array.prototype.includes` on a string list. -/
def memStr (s : String) : List String → Bool
  | [] => false
  | e :: rest => if e = s then true else memStr s rest

/-- Model of JS `String.prototype.startsWith('.')`. -/
def headIsDot (s : String) : Bool :=
  match s.data with
  | [] => false
  | c :: _ => c = '.'

/-- Model of Node `path.join` for the simple two-component case used by
`getFiles`. -/
def pjoin (a b : String) : String := a ++ "/" ++ b

/-- ASCII whitespace, for the model of JS `String.prototype.trim`. -/
def isWsChar (c : Char) : Bool :=
  decide (c = ' ' ∨ c = '\t' ∨ c = '\n' ∨ c = '\r')

/-- Model of JS `String.prototype.trim` (ASCII whitespace fragment). -/
def jsTrim (s : String) : String :=
  String.mk (((s.data.dropWhile isWsChar).reverse.dropWhile isWsChar).reverse)

/-- Splitting a character list at every `','` (never empty). -/
def splitCommaCh : List Char → List (List Char)
  | [] => [[]]
  | c :: cs =>
    match splitCommaCh cs with
    | [] => [[]]
    | h :: t => if c = ',' then [] :: h :: t else (c :: h) :: t

/-- Model of JS `String.prototype.split(',')`. -/
def jsSplitComma (s : String) : List String :=
  (splitCommaCh s.data).map String.mk

/-- The per-entry normalisation of `scan`'s `--extensions` option
(src/src/index.ts line 125): prepend a dot when the trimmed entry does not
already start with one.  No case conversion happens here. -/
def dotify (e : String) : String :=
  if headIsDot e then e else "." ++ e

/-- The extension list used by the `scan` action (src/src/index.ts lines
124-126): a user-supplied comma-separated list is split, trimmed and
dot-prefixed entry-wise; an absent option falls back to the fixed default
list. -/
def parseExtensions : Option String → List String
  | some raw => (jsSplitComma raw).map (fun e => dotify (jsTrim e))
  | none =>
    [".js", ".ts", ".jsx", ".tsx", ".py", ".go", ".java", ".rb", ".php",
     ".cs", ".c", ".cpp", ".rs"]

/-! ### File discovery (`getFiles`, src/src/index.ts lines 15-36)

A directory's contents are a list of entries.  Each entry records the
I/O faults the traversal can hit on it: for any entry, whether `statSync`
on it throws (`sErr`); for a directory entry, additionally whether
`readdirSync` of the directory itself throws (`rErr`).  The single
`try`/`catch` of `getFiles` wraps the whole `for` loop over one
directory's listing, so a `statSync` failure abandons the remaining
entries of that listing, while a `readdirSync` failure inside a recursive
call is caught by that call's own handler.
-/

/-- One directory entry as seen by the traversal. -/
inductive FSEntry : Type where
  | file : String → Bool → FSEntry
  | dir : String → Bool → Bool → List FSEntry → FSEntry

/-- The `for` loop of `getFiles` over one directory listing.  `path` is the
directory being listed; the result is the `files` accumulator contributed
by this listing.  A `statSync` error (`sErr`) jumps to the enclosing
`catch`, dropping the remaining entries of this listing; a non-hidden,
non-`node_modules` directory entry is expanded depth-first (a `readdirSync`
error there yields `[]` from the recursive call's own `catch`); a file
entry is kept when its extension, lower-cased, is in `exts`. -/
def scanEntries (exts : List String) (path : String) : List FSEntry → List String
  | [] => []
  | FSEntry.file name sErr :: rest =>
    if sErr then []
    else (if memStr (toLowerStr (extname name)) exts then [pjoin path name] else [])
         ++ scanEntries exts path rest
  | FSEntry.dir name rErr sErr children :: rest =>
    if sErr then []
    else (if !headIsDot name && name ≠ "node_modules" then
            (if rErr then [] else scanEntries exts (pjoin path name) children)
          else [])
         ++ scanEntries exts path rest

/-- `getFiles(dir, extensions)`: when `readdirSync dir` itself throws
(`readErr`), the `catch` returns the empty accumulator; otherwise the
listing `entries` is processed by the loop. -/
def getFiles (exts : List String) (path : String) (readErr : Bool) (entries : List FSEntry) : List String :=
  if readErr then [] else scanEntries exts path entries

/-- No I/O fault anywhere in the tree. -/
def errorFree : List FSEntry → Bool
  | [] => true
  | FSEntry.file _ sErr :: rest => !sErr && errorFree rest
  | FSEntry.dir _ rErr sErr children :: rest =>
    !sErr && !rErr && errorFree children && errorFree rest

/-- Modelled from the spec wording of claim C4, for comparison with
`getFiles`: `target` is reachable from `path` by recursive descent that
never enters a directory whose name begins with `'.'` or is literally
`node_modules`, ending at a file whose extension, compared
case-insensitively on the file side, is in `exts`. -/
def specReachable (exts : List String) (path : String) : List FSEntry → String → Bool
  | [], _ => false
  | FSEntry.file name _ :: rest, target =>
    (decide (target = pjoin path name) && memStr (toLowerStr (extname name)) exts)
    || specReachable exts path rest target
  | FSEntry.dir name _ _ children :: rest, target =>
    ((!headIsDot name && name ≠ "node_modules")
       && specReachable exts (pjoin path name) children target)
    || specReachable exts path rest target

/-! ### Per-file analysis (`analyzeFile`, src/src/index.ts lines 39-63)

The analysis of one file depends on the outside world only through
`readFileSync` and `fetch`; both are captured in an explicit environment.
A deterministic environment models one fixed behaviour of the file system
and of the remote service for the duration of a scan.
-/

/-- One reported vulnerability (the remote service's response schema,
src/src/index.ts lines 82-90). -/
structure Vuln : Type where
  line : Nat
  severity : String
  message : String
  cwe : Option String
deriving DecidableEq

/-- The parsed JSON body of a scan response.  Both fields are optional:
`displayResults` guards `result.file` and `result.vulnerabilities || []`
against their absence. -/
structure ScanResult : Type where
  file : Option String
  vulnerabilities : Option (List Vuln)
deriving DecidableEq

/-- The request body `{ code, language }` posted to
`/api/v1/security/scan` (src/src/index.ts line 48). -/
structure ScanRequest : Type where
  code : String
  language : Option String
deriving DecidableEq

/-- What one `fetch` of the scan endpoint does: reject (network error), or
resolve to a response with an `ok` flag, a `statusText`, and a body whose
JSON parse either succeeds or throws. -/
inductive FetchOutcome : Type where
  | netError : String → FetchOutcome
  | response : Bool → String → Except String ScanResult → FetchOutcome

/-- The command-line options record handed to the `scan` action. -/
structure ScanOptions : Type where
  file : Option String
  directory : Option String
  language : Option String
  extensions : Option String
deriving DecidableEq

/-- The deterministic outside world of one scan invocation:
`read` is `readFileSync` (content or thrown error message), `fetch` is the
remote service keyed by request body, and `dirOf` gives, for a directory
path, whether `readdirSync` on it throws together with its listing. -/
structure Env : Type where
  read : String → Except String String
  fetch : ScanRequest → FetchOutcome
  dirOf : String → Bool × List FSEntry

/-- Progress indications emitted through the `ora` spinner. -/
inductive SpinnerEvent : Type where
  | start : String → SpinnerEvent
  | succeed : String → SpinnerEvent
  | fail : String → SpinnerEvent
deriving DecidableEq

/-- `analyzeFile(filePath, options)` together with the spinner messages it
emits.  Every failure mode — `readFileSync` throwing, `fetch` rejecting,
a non-`ok` response (`throw new Error('API error: ' + statusText)`), or
`response.json()` throwing — lands in the single `catch`, which emits
`spinner.fail` and returns `null` (modelled as `none`).  On success the
parsed body is returned as-is. -/
def analyzeFileEv (env : Env) (options : ScanOptions) (filePath : String) :
    Option ScanResult × List SpinnerEvent :=
  let startEv := SpinnerEvent.start ("Analyzing " ++ filePath ++ "...")
  let failEv := fun (m : String) =>
    SpinnerEvent.fail ("Failed to analyze " ++ filePath ++ ": " ++ m)
  match env.read filePath with
  | Except.error m => (none, [startEv, failEv m])
  | Except.ok code =>
    match env.fetch { code := code, language := options.language } with
    | FetchOutcome.netError m => (none, [startEv, failEv m])
    | FetchOutcome.response ok statusText body =>
      if ok then
        match body with
        | Except.ok result =>
          (some result, [startEv, SpinnerEvent.succeed ("Analyzed " ++ filePath)])
        | Except.error m => (none, [startEv, failEv m])
      else (none, [startEv, failEv ("API error: " ++ statusText)])

/-- The value `analyzeFile` resolves with (its promise never rejects). -/
def analyzeFile (env : Env) (options : ScanOptions) (filePath : String) :
    Option ScanResult :=
  (analyzeFileEv env options filePath).1

/-! ### Concurrent fan-out (src/src/index.ts lines 141-143)

`Promise.all(files.map(file => analyzeFile(file, options)))` starts one
request per file and fills slot `i` of the result array when promise `i`
settles.  The event-loop completion order is modelled as an explicit list
of completion events (indices); `applyEvents` replays them.  Since
`analyzeFile` never rejects, `Promise.all` resolves once every index has
settled, with slot `i` holding the value of promise `i`.
-/

/-- Replay completion events: event `i` writes the settled value of
promise `i` into slot `i`. -/
def applyEvents {α : Type} (vals : Nat → α) : List Nat → List (Option α) → List (Option α)
  | [], slots => slots
  | i :: rest, slots => applyEvents vals rest (slots.set i (some (vals i)))

/-- The outcome array of `Promise.all` under completion schedule `sched`. -/
def scanWithSchedule (env : Env) (options : ScanOptions) (files : List String)
    (sched : List Nat) : List (Option ScanResult) :=
  (applyEvents (fun i => analyzeFile env options (files.getD i "")) sched
      (List.replicate files.length none)).map (fun slot => slot.getD none)

/-! ### Aggregation (`displayResults`, src/src/index.ts lines 66-102) -/

/-- The `totalVulns` accumulator of `displayResults`: `null` results are
skipped (`if (!result) continue`), and each remaining result contributes
`(result.vulnerabilities || []).length`. -/
def totalVulns (results : List (Option ScanResult)) : Nat :=
  results.foldl
    (fun acc result =>
      match result with
      | none => acc
      | some r => acc + (r.vulnerabilities.getD []).length)
    0

/-- The final branch of `displayResults`: the clean message is printed
exactly when `totalVulns` is not `> 0`. -/
def displayClean (results : List (Option ScanResult)) : Bool :=
  !decide (0 < totalVulns results)

/-- The aggregate report of one scan under a completion schedule. -/
structure Report : Type where
  totalVulnerabilityCount : Nat
  perFile : List (Option ScanResult)
deriving DecidableEq

/-- The report produced by the pipeline under schedule `sched`. -/
def scanReport (env : Env) (options : ScanOptions) (files : List String)
    (sched : List Nat) : Report :=
  { totalVulnerabilityCount := totalVulns (scanWithSchedule env options files sched)
    perFile := scanWithSchedule env options files sched }

/-! ### The `scan` action (src/src/index.ts lines 118-152) -/

/-- What one invocation of the `scan` action does: exit 1 before the
pipeline starts when neither `--file` nor `--directory` is given;
otherwise build the file list (an explicit `--file` wins and bypasses
discovery), analyze every file, and display the report.  Nothing inside
the `try` block ever throws (`getFiles` and `analyzeFile` both swallow
their errors), so the `catch`/`process.exit(1)` path is unreachable and
the process finishes with exit code 0. -/
inductive ScanOutcome : Type where
  | usageError : ScanOutcome
  | report : List (Option ScanResult) → Nat → Nat → ScanOutcome
deriving DecidableEq

/-- The `scan` action over environment `env` (outcomes listed in input
order, as delivered by `Promise.all`). -/
def scanAction (env : Env) (options : ScanOptions) : ScanOutcome :=
  if options.file.isNone && options.directory.isNone then ScanOutcome.usageError
  else
    let exts := parseExtensions options.extensions
    let files : List String :=
      match options.file with
      | some f => [f]
      | none =>
        match options.directory with
        | some d => getFiles exts d (env.dirOf d).1 (env.dirOf d).2
        | none => []
    let results := files.map (analyzeFile env options)
    ScanOutcome.report results (totalVulns results) 0

/-- The process exit code of a scan outcome. -/
def exitCodeOf : ScanOutcome → Nat
  | ScanOutcome.usageError => 1
  | ScanOutcome.report _ _ c => c

/-- The per-file outcome list of a scan outcome. -/
def resultsOf : ScanOutcome → List (Option ScanResult)
  | ScanOutcome.usageError => []
  | ScanOutcome.report rs _ _ => rs

/-- The contribution of one outcome to `totalVulns`. -/
def vulnCount : Option ScanResult → Nat
  | none => 0
  | some r => (r.vulnerabilities.getD []).length

/-! ### Concrete environments and trees used to instantiate the theorems -/

/-- A sample finding. -/
def vulnHigh : Vuln :=
  { line := 3, severity := "high", message := "XSS", cwe := none }

/-- A sample successful response body with one finding. -/
def resOne : ScanResult :=
  { file := some "b.ts", vulnerabilities := some [vulnHigh] }

/-- A 2xx response body with no `vulnerabilities` field at all. -/
def resNoField : ScanResult :=
  { file := none, vulnerabilities := none }

/-- A world where every read and every request succeeds. -/
def envOk : Env :=
  { read := fun _ => Except.ok "code"
    fetch := fun _ => FetchOutcome.response true "OK" (Except.ok resOne)
    dirOf := fun _ => (true, []) }

/-- A world where exactly the file `b.ts` is unreadable. -/
def envOneFail : Env :=
  { read := fun p => if p = "b.ts" then Except.error "ENOENT" else Except.ok "code"
    fetch := fun _ => FetchOutcome.response true "OK" (Except.ok resOne)
    dirOf := fun _ => (true, []) }

/-- A world where every read and every request fails. -/
def envAllFail : Env :=
  { read := fun _ => Except.error "ENOENT"
    fetch := fun _ => FetchOutcome.netError "fetch failed"
    dirOf := fun _ => (true, []) }

/-- A world whose service answers 2xx with a body lacking the
`vulnerabilities` field. -/
def envNoField : Env :=
  { read := fun _ => Except.ok "code"
    fetch := fun _ => FetchOutcome.response true "OK" (Except.ok resNoField)
    dirOf := fun _ => (true, []) }

/-- Options with nothing supplied. -/
def emptyOptions : ScanOptions :=
  { file := none, directory := none, language := none, extensions := none }

/-- Options selecting a single explicit file. -/
def fileOptions (p : String) : ScanOptions :=
  { file := some p, directory := none, language := none, extensions := none }

/-- Options supplying both a single file and a directory. -/
def bothOptions : ScanOptions :=
  { file := some "a.ts", directory := some "proj", language := none,
    extensions := none }

/-- A sample directory tree: a normal source directory, a hidden
directory, and a `node_modules` directory, each holding files. -/
def treeSample : List FSEntry :=
  [FSEntry.dir "src" false false
     [FSEntry.file "a.ts" false, FSEntry.file "b.TXT" false],
   FSEntry.dir ".git" false false [FSEntry.file "c.ts" false],
   FSEntry.dir "node_modules" false false [FSEntry.file "d.ts" false]]

/-- `envOk` with a populated directory listing (used to show the
directory is ignored when `--file` is also given). -/
def envOkWithDir : Env :=
  { read := envOk.read
    fetch := envOk.fetch
    dirOf := fun _ => (false, treeSample) }

/-! ### Helper lemmas -/

theorem char_toNat_ofNat {n : Nat} (h : n.isValidChar) : (Char.ofNat n).toNat = n := by
  unfold Char.ofNat
  rw [dif_pos h]
  unfold Char.ofNatAux Char.toNat
  simp [UInt32.toNat]

theorem charToLower_not_upper (c : Char) :
    ¬(65 ≤ (charToLower c).toNat ∧ (charToLower c).toNat ≤ 90) := by
  unfold charToLower
  split
  · rename_i h
    have hv : (c.toNat + 32).isValidChar := by
      left
      omega
    rw [char_toNat_ofNat hv]
    omega
  · rename_i h
    exact h

theorem toLowerStr_no_upper (s : String) : hasUpperAscii (toLowerStr s) = false := by
  show ((s.data.map charToLower).any _) = false
  rw [List.any_map]
  simp only [List.any_eq_false, Function.comp]
  intro c _
  simpa using charToLower_not_upper c

theorem toLowerStr_ne (e : String) (he : hasUpperAscii e = true) (s : String) :
    toLowerStr s ≠ e := by
  intro h
  rw [← h, toLowerStr_no_upper] at he
  cases he

theorem memStr_filter_upper (t : String) (ht : hasUpperAscii t = false) :
    ∀ exts : List String,
      memStr t (exts.filter (fun e => !hasUpperAscii e)) = memStr t exts := by
  intro exts
  induction exts with
  | nil => rfl
  | cons e rest ih =>
    by_cases he : hasUpperAscii e = true
    · have hne : e ≠ t := by
        intro h
        rw [h, ht] at he
        cases he
      simp [List.filter_cons, he, memStr, hne, ih]
    · rw [Bool.not_eq_true] at he
      by_cases het : e = t
      · subst het
        simp [List.filter_cons, he, memStr]
      · simp [List.filter_cons, he, memStr, het, ih]

theorem foldl_add_sum (ns : List Nat) : ∀ n : Nat,
    ns.foldl (fun a b => a + b) n = n + ns.sum := by
  induction ns with
  | nil => simp
  | cons m t ih =>
    intro n
    simp only [List.foldl_cons, List.sum_cons, ih]
    omega

theorem totalVulns_aux : ∀ (l : List (Option ScanResult)) (n : Nat),
    List.foldl (fun acc result => match result with
      | none => acc
      | some r => acc + (r.vulnerabilities.getD []).length) n l
      = n + (l.map vulnCount).sum := by
  intro l
  induction l with
  | nil => simp
  | cons r t ih =>
    intro n
    cases r with
    | none => simp [List.foldl_cons, ih, vulnCount]
    | some x =>
      simp only [List.foldl_cons, List.map_cons, List.sum_cons, ih, vulnCount]
      omega

theorem totalVulns_eq_sum (l : List (Option ScanResult)) :
    totalVulns l = (l.map vulnCount).sum := by
  unfold totalVulns
  rw [totalVulns_aux l 0]
  simp

theorem sum_filterMap (l : List (Option ScanResult)) :
    ((l.filterMap id).map (fun r => (r.vulnerabilities.getD []).length)).sum
      = (l.map vulnCount).sum := by
  induction l with
  | nil => simp
  | cons r t ih => cases r <;> simp [List.filterMap_cons, vulnCount, ih]

theorem scanEntries_filter_upper (exts : List String) (path : String) (es : List FSEntry) :
    scanEntries (exts.filter (fun e => !hasUpperAscii e)) path es
      = scanEntries exts path es := by
  refine scanEntries.induct exts
    (motive := fun path es =>
      scanEntries (exts.filter (fun e => !hasUpperAscii e)) path es
        = scanEntries exts path es) ?_ ?_ ?_ ?_ ?_ path es
  · intro path
    simp [scanEntries]
  · intro path name rest
    simp [scanEntries]
  · intro path name sErr rest hs ih
    rw [Bool.not_eq_true] at hs
    subst hs
    simp only [scanEntries, Bool.false_eq_true, if_false]
    rw [memStr_filter_upper (toLowerStr (extname name)) (toLowerStr_no_upper (extname name)) exts, ih]
  · intro path name rErr children rest
    simp [scanEntries]
  · intro path name rErr sErr children rest hs ihc ihr
    rw [Bool.not_eq_true] at hs
    subst hs
    simp only [scanEntries, Bool.false_eq_true, if_false]
    rw [ihc, ihr]

theorem applyEvents_length {α : Type} (vals : Nat → α) :
    ∀ (sched : List Nat) (slots : List (Option α)),
      (applyEvents vals sched slots).length = slots.length := by
  intro sched
  induction sched with
  | nil => intro slots; rfl
  | cons i rest ih =>
    intro slots
    simp [applyEvents, ih]

theorem applyEvents_getElem {α : Type} (vals : Nat → α) :
    ∀ (sched : List Nat) (slots : List (Option α)) (j : Nat),
      (applyEvents vals sched slots)[j]?
        = if j ∈ sched ∧ j < slots.length then some (some (vals j)) else slots[j]? := by
  intro sched
  induction sched with
  | nil =>
    intro slots j
    simp [applyEvents]
  | cons i rest ih =>
    intro slots j
    simp only [applyEvents]
    rw [ih, List.length_set]
    by_cases hr : j ∈ rest ∧ j < slots.length
    · rw [if_pos hr, if_pos ⟨List.mem_cons_of_mem i hr.1, hr.2⟩]
    · rw [if_neg hr, List.getElem?_set]
      by_cases hij : i = j
      · subst hij
        by_cases hlen : i < slots.length
        · rw [if_pos rfl, if_pos hlen, if_pos ⟨List.mem_cons_self i rest, hlen⟩]
        · rw [if_pos rfl, if_neg hlen, if_neg (fun h => hlen h.2),
            List.getElem?_eq_none (Nat.le_of_not_lt hlen)]
      · rw [if_neg hij]
        have : ¬(j ∈ i :: rest ∧ j < slots.length) := by
          intro h
          rcases List.mem_cons.mp h.1 with h1 | h1
          · exact hij (h1 ▸ rfl)
          · exact hr ⟨h1, h.2⟩
        rw [if_neg this]

theorem scanWithSchedule_eq_map (env : Env) (options : ScanOptions)
    (files : List String) (sched : List Nat)
    (hs : ∀ j, j < files.length → j ∈ sched) :
    scanWithSchedule env options files sched = files.map (analyzeFile env options) := by
  apply List.ext_getElem
  · simp [scanWithSchedule, applyEvents_length]
  · intro j h1 h2
    have hj : j < files.length := by
      simpa using h2
    have h3 : (applyEvents (fun i => analyzeFile env options (files.getD i "")) sched
        (List.replicate files.length none))[j]?
        = some (some (analyzeFile env options (files.getD j ""))) := by
      rw [applyEvents_getElem]
      rw [if_pos ⟨hs j hj, by simpa using hj⟩]
    have h4 : j < (applyEvents (fun i => analyzeFile env options (files.getD i "")) sched
        (List.replicate files.length none)).length := by
      rw [applyEvents_length]
      simpa using hj
    have h5 : (applyEvents (fun i => analyzeFile env options (files.getD i "")) sched
        (List.replicate files.length none))[j]
        = some (analyzeFile env options (files.getD j "")) := by
      have := List.getElem?_eq_getElem h4
      rw [h3] at this
      exact (Option.some.inj this).symm
    simp only [scanWithSchedule, List.getElem_map, h5, Option.getD_some]
    rw [List.getD_eq_getElem?_getD, List.getElem?_eq_getElem hj]
    rfl

theorem countP_isSome_isNone {α : Type} (l : List (Option α)) :
    l.countP (fun r => r.isSome) + l.countP (fun r => r.isNone) = l.length := by
  induction l with
  | nil => rfl
  | cons r t ih =>
    cases r <;> simp [List.countP_cons] <;> omega

theorem analyzeFileEv_congr (env env2 : Env) (options : ScanOptions) (p : String)
    (hr : env2.read = env.read) (hf : env2.fetch = env.fetch) :
    analyzeFileEv env2 options p = analyzeFileEv env options p := by
  unfold analyzeFileEv
  rw [hr, hf]

theorem mem_scanEntries_iff (exts : List String) (path : String) (es : List FSEntry) :
    errorFree es = true →
      ∀ target : String,
        (target ∈ scanEntries exts path es ↔ specReachable exts path es target = true) := by
  refine scanEntries.induct exts
    (motive := fun path es => errorFree es = true →
      ∀ target, (target ∈ scanEntries exts path es ↔ specReachable exts path es target = true))
    ?_ ?_ ?_ ?_ ?_ path es
  · intro path _ target
    simp [scanEntries, specReachable]
  · intro path name rest hef
    exfalso
    simp [errorFree] at hef
  · intro path name sErr rest hs ih hef target
    rw [Bool.not_eq_true] at hs
    subst hs
    simp only [errorFree, Bool.not_false, Bool.true_and] at hef
    simp only [scanEntries, Bool.false_eq_true, if_false, specReachable]
    rw [List.mem_append]
    by_cases hm : memStr (toLowerStr (extname name)) exts = true
    · simp [hm, ih hef, List.mem_singleton]
    · rw [Bool.not_eq_true] at hm
      simp [hm, ih hef]
  · intro path name rErr children rest hef
    exfalso
    simp [errorFree] at hef
  · intro path name rErr sErr children rest hs ihc ihr hef target
    rw [Bool.not_eq_true] at hs
    subst hs
    simp only [errorFree, Bool.not_false, Bool.true_and, Bool.and_eq_true,
      Bool.not_eq_true'] at hef
    obtain ⟨⟨hrf, hc⟩, hr⟩ := hef
    subst hrf
    simp only [scanEntries, Bool.false_eq_true, if_false, specReachable]
    rw [List.mem_append]
    by_cases hv : (!headIsDot name && decide (name ≠ "node_modules")) = true
    · simp [hv, ihc hc, ihr hr]
    · rw [Bool.not_eq_true] at hv
      simp [hv, ihr hr, ihc hc]

/-! ### Claim theorems -/

/-- Claim C1: for every outcome sequence, the aggregated `totalVulns` of
`displayResults` equals the sum of the lengths of the vulnerability lists
of the successful outcomes, and every failed (`null`) outcome contributes
exactly 0 to that total. -/
theorem totalVulns_eq_successful_sum (results : List (Option ScanResult)) :
    totalVulns results
      = ((results.filterMap id).map (fun r => (r.vulnerabilities.getD []).length)).sum
    ∧ ∀ pre post : List (Option ScanResult),
        totalVulns (pre ++ none :: post) = totalVulns (pre ++ post) := by
  constructor
  · rw [totalVulns_eq_sum, sum_filterMap]
  · intro pre post
    rw [totalVulns_eq_sum, totalVulns_eq_sum]
    simp [vulnCount]

/-- Claim C4: for an error-free directory tree and a non-empty set of
lower-cased, dot-prefixed extensions, `getFiles` returns exactly the files
reachable by recursive descent whose lower-cased extension is in the set,
never descending into hidden or `node_modules` directories (the spec-side
reachability predicate is `specReachable`). -/
theorem getFiles_exactly_reachable (exts : List String) (path : String)
    (es : List FSEntry) (target : String)
    (hne : exts ≠ [])
    (hshape : ∀ e ∈ exts, headIsDot e = true ∧ hasUpperAscii e = false)
    (herr : errorFree es = true) :
    target ∈ getFiles exts path false es ↔ specReachable exts path es target = true := by
  have h := mem_scanEntries_iff exts path es herr target
  simpa [getFiles] using h

/-- Witness for C4 at a concrete tree: the file in `src` is discovered and
reachable; hidden and `node_modules` contents are not. -/
theorem getFiles_exactly_reachable_witness :
    (pjoin (pjoin "root" "src") "a.ts" ∈ getFiles [".ts"] "root" false treeSample)
      ↔ specReachable [".ts"] "root" treeSample (pjoin (pjoin "root" "src") "a.ts") = true :=
  getFiles_exactly_reachable [".ts"] "root" treeSample (pjoin (pjoin "root" "src") "a.ts")
    (by decide) (by decide) (by simp [errorFree, treeSample])

/-- Claim C10: each supplied `--extensions` entry is trimmed and
dot-prefixed but never lower-cased; discovered file extensions are
lower-cased before comparison, so an entry containing an uppercase letter
can never equal a lower-cased extension, and filtering such entries out of
the set leaves `getFiles` unchanged (they match no file at all). -/
theorem extensions_keep_case_so_uppercase_never_matches :
    (∀ raw e, e ∈ parseExtensions (some raw)
        → ∃ p ∈ jsSplitComma raw, e = dotify (jsTrim p))
    ∧ (∀ e, hasUpperAscii e = true → ∀ name, toLowerStr (extname name) ≠ e)
    ∧ (∀ (exts : List String) (path : String) (readErr : Bool) (entries : List FSEntry),
        getFiles (exts.filter (fun e => !hasUpperAscii e)) path readErr entries
          = getFiles exts path readErr entries) := by
  refine ⟨?_, ?_, ?_⟩
  · intro raw e he
    simp only [parseExtensions, List.mem_map] at he
    obtain ⟨p, hp, rfl⟩ := he
    exact ⟨p, hp, rfl⟩
  · intro e he name
    exact toLowerStr_ne e he (extname name)
  · intro exts path readErr entries
    unfold getFiles
    rw [scanEntries_filter_upper]

/-- Witness for C10 at concrete values: `"ts, .TSX"` parses to entries that
are trims of the raw pieces with a dot prepended; the uppercase entry
`".TSX"` never equals a lower-cased extension; and dropping it from the
set does not change discovery. -/
theorem extensions_keep_case_so_uppercase_never_matches_witness :
    (∃ p ∈ jsSplitComma "ts, .TSX", ".ts" = dotify (jsTrim p))
    ∧ toLowerStr (extname "a.tsx") ≠ ".TSX"
    ∧ getFiles ([".ts", ".TSX"].filter (fun e => !hasUpperAscii e)) "r" false
          [FSEntry.file "a.tsx" false]
        = getFiles [".ts", ".TSX"] "r" false [FSEntry.file "a.tsx" false] :=
  ⟨extensions_keep_case_so_uppercase_never_matches.1 "ts, .TSX" ".ts" (by decide),
   extensions_keep_case_so_uppercase_never_matches.2.1 ".TSX" (by decide) "a.tsx",
   extensions_keep_case_so_uppercase_never_matches.2.2 [".ts", ".TSX"] "r" false
     [FSEntry.file "a.tsx" false]⟩

/-- Claim C2: for N input files the fan-out returns exactly N outcomes,
slot `i` holding the outcome of file `i` whatever the completion schedule
(positional, not completion, order); a failure of one analysis never
affects the others, and when exactly one of the N analyses fails, N
outcomes are returned of which N−1 are successful. -/
theorem scan_outcomes_positional (env : Env) (options : ScanOptions)
    (files : List String) (sched : List Nat)
    (hs : ∀ j, j < files.length → j ∈ sched) :
    scanWithSchedule env options files sched = files.map (analyzeFile env options)
    ∧ (scanWithSchedule env options files sched).length = files.length
    ∧ ((files.map (analyzeFile env options)).countP (fun r => r.isNone) = 1 →
        (scanWithSchedule env options files sched).countP (fun r => r.isSome)
          = files.length - 1) := by
  have h := scanWithSchedule_eq_map env options files sched hs
  refine ⟨h, ?_, ?_⟩
  · rw [h, List.length_map]
  · intro hone
    rw [h]
    have h2 := countP_isSome_isNone (files.map (analyzeFile env options))
    rw [hone, List.length_map] at h2
    omega

/-- Witness for C2: three files, the middle one unreadable, completing out
of order; three outcomes come back, two of them successful. -/
theorem scan_outcomes_positional_witness :
    scanWithSchedule envOneFail emptyOptions ["a.ts", "b.ts", "c.ts"] [2, 0, 1]
        = ["a.ts", "b.ts", "c.ts"].map (analyzeFile envOneFail emptyOptions)
    ∧ (scanWithSchedule envOneFail emptyOptions ["a.ts", "b.ts", "c.ts"] [2, 0, 1]).length = 3
    ∧ (scanWithSchedule envOneFail emptyOptions ["a.ts", "b.ts", "c.ts"] [2, 0, 1]).countP
        (fun r => r.isSome) = 2 := by
  have h := scan_outcomes_positional envOneFail emptyOptions ["a.ts", "b.ts", "c.ts"] [2, 0, 1]
    (by decide)
  exact ⟨h.1, h.2.1, h.2.2 (by decide)⟩

/-- Claim C7: over a fixed file set and a deterministic environment the
pipeline is deterministic: the report does not depend on the completion
schedule, so two invocations over the same input produce identical
`Report` values. -/
theorem scan_report_schedule_independent (env : Env) (options : ScanOptions)
    (files : List String) (s1 s2 : List Nat)
    (h1 : ∀ j, j < files.length → j ∈ s1)
    (h2 : ∀ j, j < files.length → j ∈ s2) :
    scanReport env options files s1 = scanReport env options files s2 := by
  unfold scanReport
  rw [scanWithSchedule_eq_map env options files s1 h1,
    scanWithSchedule_eq_map env options files s2 h2]

/-- Witness for C7: two runs over the same two files with opposite
completion orders give the same report. -/
theorem scan_report_schedule_independent_witness :
    scanReport envOk emptyOptions ["a.ts", "b.ts"] [1, 0]
      = scanReport envOk emptyOptions ["a.ts", "b.ts"] [0, 1] :=
  scan_report_schedule_independent envOk emptyOptions ["a.ts", "b.ts"] [1, 0] [0, 1]
    (by decide) (by decide)

/-- Counterexample to claim C3 as stated: on failure `analyzeFile` returns
the bare marker `null` (`none`), so the returned value carries neither the
originating file path nor a cause — two failing calls on distinct paths
return the identical value. -/
theorem failed_outcome_carries_no_path :
    analyzeFile envAllFail emptyOptions "a.ts" = none
    ∧ analyzeFile envAllFail emptyOptions "b.ts" = none
    ∧ analyzeFile envAllFail emptyOptions "a.ts" = analyzeFile envAllFail emptyOptions "b.ts"
    ∧ "a.ts" ≠ "b.ts" :=
  ⟨rfl, rfl, rfl, by decide⟩

/-- Claim C3 (amended): on every failure mode (unreadable file, network
error, non-success HTTP status, malformed response body) `analyzeFile`
returns normally with the bare failure marker `null`; the originating file
path and the human-readable cause appear only in the `spinner.fail`
progress indication, not in the returned value. -/
theorem analyze_failure_null_spinner_carries_cause (env : Env) (options : ScanOptions)
    (p : String) :
    (∀ m, env.read p = Except.error m →
      analyzeFileEv env options p
        = (none, [SpinnerEvent.start ("Analyzing " ++ p ++ "..."),
            SpinnerEvent.fail ("Failed to analyze " ++ p ++ ": " ++ m)]))
    ∧ (∀ code m, env.read p = Except.ok code →
        env.fetch { code := code, language := options.language } = FetchOutcome.netError m →
        analyzeFileEv env options p
          = (none, [SpinnerEvent.start ("Analyzing " ++ p ++ "..."),
              SpinnerEvent.fail ("Failed to analyze " ++ p ++ ": " ++ m)]))
    ∧ (∀ code statusText body, env.read p = Except.ok code →
        env.fetch { code := code, language := options.language }
          = FetchOutcome.response false statusText body →
        analyzeFileEv env options p
          = (none, [SpinnerEvent.start ("Analyzing " ++ p ++ "..."),
              SpinnerEvent.fail
                ("Failed to analyze " ++ p ++ ": " ++ ("API error: " ++ statusText))]))
    ∧ (∀ code statusText m, env.read p = Except.ok code →
        env.fetch { code := code, language := options.language }
          = FetchOutcome.response true statusText (Except.error m) →
        analyzeFileEv env options p
          = (none, [SpinnerEvent.start ("Analyzing " ++ p ++ "..."),
              SpinnerEvent.fail ("Failed to analyze " ++ p ++ ": " ++ m)])) := by
  refine ⟨?_, ?_, ?_, ?_⟩
  · intro m hm
    unfold analyzeFileEv
    rw [hm]
  · intro code m h1 h2
    unfold analyzeFileEv
    rw [h1]
    dsimp only
    rw [h2]
  · intro code statusText body h1 h2
    unfold analyzeFileEv
    rw [h1]
    dsimp only
    rw [h2]
    rfl
  · intro code statusText m h1 h2
    unfold analyzeFileEv
    rw [h1]
    dsimp only
    rw [h2]
    rfl

/-- Witness for C3 (amended) at a concrete failing environment. -/
theorem analyze_failure_null_spinner_carries_cause_witness :
    analyzeFileEv envAllFail emptyOptions "a.ts"
      = (none, [SpinnerEvent.start ("Analyzing " ++ "a.ts" ++ "..."),
          SpinnerEvent.fail ("Failed to analyze " ++ "a.ts" ++ ": " ++ "ENOENT")]) :=
  (analyze_failure_null_spinner_carries_cause envAllFail emptyOptions "a.ts").1 "ENOENT" rfl

/-- Counterexample to claim C5 as stated: the explicit single-file scan of
an unreadable path does yield a failed outcome for that path, but the
process completes with exit code 0 and a clean report, not a non-zero
exit code. -/
theorem missing_file_exit_code_zero :
    resultsOf (scanAction envAllFail (fileOptions "missing.ts")) = [none]
    ∧ exitCodeOf (scanAction envAllFail (fileOptions "missing.ts")) = 0
    ∧ displayClean (resultsOf (scanAction envAllFail (fileOptions "missing.ts"))) = true :=
  ⟨rfl, rfl, rfl⟩

/-- Claim C5 (amended): an explicit single-file scan of a path whose read
fails yields a failed FileOutcome (`null`) for that path, but the process
exit code is 0: nothing in the scan body throws, so the `catch` that would
exit non-zero is never reached and the run completes as a clean report.
Exit code 1 is produced only by the usage-error path. -/
theorem missing_file_failed_outcome_exit_zero (env : Env) (options : ScanOptions)
    (p m : String) (hf : options.file = some p) (hr : env.read p = Except.error m) :
    scanAction env options = ScanOutcome.report [none] 0 0 := by
  have hnull : analyzeFile env options p = none := by
    unfold analyzeFile analyzeFileEv
    rw [hr]
  unfold scanAction
  rw [hf]
  simp [hnull, totalVulns]

/-- Witness for C5 (amended) at a concrete environment. -/
theorem missing_file_failed_outcome_exit_zero_witness :
    scanAction envAllFail (fileOptions "missing.ts") = ScanOutcome.report [none] 0 0 :=
  missing_file_failed_outcome_exit_zero envAllFail (fileOptions "missing.ts")
    "missing.ts" "ENOENT" rfl rfl

/-- Counterexample to claim C6 as stated: a `statSync` error on `bad.ts`
aborts the rest of the same directory listing, so the matching sibling
`good.ts` listed after it is dropped from the result — traversal does not
continue over the remaining sibling entries. -/
theorem stat_error_drops_matching_sibling :
    getFiles [".ts"] "r" false [FSEntry.file "bad.ts" true, FSEntry.file "good.ts" false] = []
    ∧ pjoin "r" "good.ts" ∉ getFiles [".ts"] "r" false
        [FSEntry.file "bad.ts" true, FSEntry.file "good.ts" false]
    ∧ pjoin "r" "good.ts" ∈ getFiles [".ts"] "r" false [FSEntry.file "good.ts" false] := by
  have hm : memStr (toLowerStr (extname "good.ts")) [".ts"] = true := by decide
  refine ⟨?_, ?_, ?_⟩
  · simp [getFiles, scanEntries]
  · simp [getFiles, scanEntries]
  · simp [getFiles, scanEntries, hm]

/-- Claim C6 (amended): traversal errors are non-fatal to the traversal as
a whole, but their containment depends on the failing primitive: a
`readdirSync` error on a subdirectory skips exactly that subdirectory's
subtree while its sibling entries are still processed; a `statSync` error
on an entry abandons all remaining entries of the same directory listing
(entries processed before it, and other directories, are unaffected). -/
theorem traversal_error_containment (exts : List String) (path name : String)
    (children rest : List FSEntry)
    (h1 : headIsDot name = false) (h2 : name ≠ "node_modules") :
    scanEntries exts path (FSEntry.dir name true false children :: rest)
        = scanEntries exts path rest
    ∧ (∀ fname, scanEntries exts path (FSEntry.file fname true :: rest) = [])
    ∧ (∀ dname rErr dchildren,
        scanEntries exts path (FSEntry.dir dname rErr true dchildren :: rest) = [])
    ∧ (∀ gname fname, memStr (toLowerStr (extname gname)) exts = true →
        scanEntries exts path
            (FSEntry.file gname false :: FSEntry.file fname true :: rest)
          = [pjoin path gname]) := by
  refine ⟨?_, ?_, ?_, ?_⟩
  · simp [scanEntries, h1, h2]
  · intro fname
    simp [scanEntries]
  · intro dname rErr dchildren
    simp [scanEntries]
  · intro gname fname hm
    simp [scanEntries, hm]

/-- Witness for C6 (amended) at concrete trees. -/
theorem traversal_error_containment_witness :
    scanEntries [".ts"] "r"
        [FSEntry.dir "sub" true false [FSEntry.file "x.ts" false],
         FSEntry.file "good.ts" false]
      = scanEntries [".ts"] "r" [FSEntry.file "good.ts" false]
    ∧ scanEntries [".ts"] "r" [FSEntry.file "bad.ts" true, FSEntry.file "good.ts" false] = []
    ∧ scanEntries [".ts"] "r"
        [FSEntry.file "good.ts" false, FSEntry.file "bad.ts" true,
         FSEntry.file "good.ts" false]
      = [pjoin "r" "good.ts"] := by
  have h := traversal_error_containment [".ts"] "r" "sub" [FSEntry.file "x.ts" false]
    [FSEntry.file "good.ts" false] (by decide) (by decide)
  exact ⟨h.1, h.2.1 "bad.ts", h.2.2.2 "good.ts" "bad.ts" (by decide)⟩

/-- Claim C8: a 2xx response whose JSON body lacks the `vulnerabilities`
field yields a successful FileOutcome with zero vulnerabilities — it
contributes 0 to the total wherever it appears and counts toward a clean
report — rather than a malformed-response failure. -/
theorem missing_vulnerabilities_field_is_success (env : Env) (options : ScanOptions)
    (p code statusText : String) (r : ScanResult)
    (hr : env.read p = Except.ok code)
    (hf : env.fetch { code := code, language := options.language }
        = FetchOutcome.response true statusText (Except.ok r))
    (hv : r.vulnerabilities = none) :
    analyzeFile env options p = some r
    ∧ (analyzeFile env options p).isSome = true
    ∧ (∀ pre post, totalVulns (pre ++ some r :: post) = totalVulns (pre ++ post))
    ∧ displayClean [analyzeFile env options p] = true := by
  have hsucc : analyzeFile env options p = some r := by
    unfold analyzeFile analyzeFileEv
    rw [hr]
    dsimp only
    rw [hf]
    rfl
  refine ⟨hsucc, by rw [hsucc]; rfl, ?_, ?_⟩
  · intro pre post
    rw [totalVulns_eq_sum, totalVulns_eq_sum]
    simp [vulnCount, hv]
  · rw [hsucc]
    unfold displayClean
    simp [totalVulns, hv]

/-- Witness for C8 at a concrete environment whose service omits the
`vulnerabilities` field. -/
theorem missing_vulnerabilities_field_is_success_witness :
    analyzeFile envNoField emptyOptions "a.ts" = some resNoField
    ∧ (analyzeFile envNoField emptyOptions "a.ts").isSome = true
    ∧ totalVulns [some resNoField, none] = totalVulns [none]
    ∧ displayClean [analyzeFile envNoField emptyOptions "a.ts"] = true := by
  have h := missing_vulnerabilities_field_is_success envNoField emptyOptions
    "a.ts" "code" "OK" resNoField rfl rfl rfl
  exact ⟨h.1, h.2.1, h.2.2.1 [] [none], h.2.2.2⟩

/-- Claim C9: when both `--file` and `--directory` are supplied, only the
single file is analyzed: the directory listing is never consulted (the
outcome is unchanged under any change to the directory part of the world)
and contributes no files to the scan. -/
theorem file_option_bypasses_directory (env env2 : Env) (options : ScanOptions)
    (f d : String) (hf : options.file = some f) (hd : options.directory = some d)
    (hr : env2.read = env.read) (hfe : env2.fetch = env.fetch) :
    scanAction env options
        = ScanOutcome.report [analyzeFile env options f]
            (totalVulns [analyzeFile env options f]) 0
    ∧ scanAction env2 options = scanAction env options := by
  have hone : ∀ e : Env, e.read = env.read → e.fetch = env.fetch →
      scanAction e options = ScanOutcome.report [analyzeFile env options f]
        (totalVulns [analyzeFile env options f]) 0 := by
    intro e h1 h2
    have hsame : analyzeFile e options f = analyzeFile env options f := by
      unfold analyzeFile
      rw [analyzeFileEv_congr env e options f h1 h2]
    unfold scanAction
    rw [hf]
    simp [hsame]
  exact ⟨hone env rfl rfl, by rw [hone env2 hr hfe, hone env rfl rfl]⟩

/-- Witness for C9: the same options with two worlds that differ only in
the directory listing give the same outcome. -/
theorem file_option_bypasses_directory_witness :
    scanAction envOk bothOptions
        = ScanOutcome.report [analyzeFile envOk bothOptions "a.ts"]
            (totalVulns [analyzeFile envOk bothOptions "a.ts"]) 0
    ∧ scanAction envOkWithDir bothOptions = scanAction envOk bothOptions :=
  file_option_bypasses_directory envOk envOkWithDir bothOptions "a.ts" "proj"
    rfl rfl rfl rfl
